import Mathlib

/-! Host interface of libsm64: savestates, input injection, object copy.

A shallow embedding of `libsm64_utils/sm64.hpp`.

* The mapped image of the loaded module is a finite list of bytes; a pointer
  into it is a signed byte offset from the module base (`_lib_ptr` is offset 0).
* The savestates that the caller owns live next to the module image in a
  `Heap`; a `savestate&` argument is the index of that savestate in the heap.
* Every raw access is checked: an access outside the addressed object, which is
  undefined behaviour in the source, yields `Fault.out_of_range`.
-/

namespace libsm64

/-! ## Data model -/

/-- Failure of an operation: `shared_lib_error` is the exception of the source,
`out_of_range` stands for an access outside the addressed object. -/
inductive Fault where
  | shared_lib_error
  | out_of_range
deriving DecidableEq, Repr

/-- The `sm64::version` enumeration. -/
inductive version where
  | US
  | JP
deriving DecidableEq, Repr

/-- The `sm64::mem_region` record: `ptrdiff_t address`, `uintptr_t size`. -/
structure mem_region where
  address : Int
  size : Nat
deriving DecidableEq, Repr

/-- The `savestate` class: `array<vector<uint8_t>, 2> handle`. -/
structure savestate where
  handle : List Nat × List Nat
deriving DecidableEq, Repr

/-- The `savestate::operator[]` accessor, read side. -/
def savestate.get (s : savestate) (i : Fin 2) : List Nat :=
  if i = 0 then s.handle.1 else s.handle.2

/-- The `savestate::operator[]` accessor, assignment through the reference. -/
def savestate.set (s : savestate) (i : Fin 2) (b : List Nat) : savestate :=
  if i = 0 then ⟨(b, s.handle.2)⟩ else ⟨(s.handle.1, b)⟩

/-- The `sm64` class. `_lib` is the loaded module seen as its export table
(symbol name to offset of the symbol in the module image); `_regions` is the
two-entry region list. -/
structure sm64 where
  _lib : String → Option Int
  _version : version
  _regions : mem_region × mem_region

/-- Entry `i` of the `_regions` array. -/
def sm64.region (h : sm64) (i : Fin 2) : mem_region :=
  if i = 0 then h._regions.1 else h._regions.2

/-- The memory the operations act on: the module image and the savestates
owned by the caller. -/
structure Heap where
  lib : List Nat
  slots : List savestate
deriving DecidableEq, Repr

/-- A byte pointer: `lib off` is `_lib_ptr + off` in the module image, and
`buf slot i off` is `&save[i][off]` for the savestate stored at index `slot`. -/
inductive Ptr where
  | lib (off : Int)
  | buf (slot : Nat) (i : Fin 2) (off : Int)
deriving DecidableEq, Repr

/-! ## Raw memory primitives -/

/-- Read `n` bytes at offset `off` of an object. -/
def readBytes (m : List Nat) (off : Int) (n : Nat) : Except Fault (List Nat) :=
  if 0 ≤ off ∧ off.toNat + n ≤ m.length then
    .ok ((m.drop off.toNat).take n)
  else
    .error .out_of_range

/-- Overwrite the bytes at offset `off` of an object with `bs`. -/
def writeBytes (m : List Nat) (off : Int) (bs : List Nat) : Except Fault (List Nat) :=
  if 0 ≤ off ∧ off.toNat + bs.length ≤ m.length then
    .ok (m.take off.toNat ++ bs ++ m.drop (off.toNat + bs.length))
  else
    .error .out_of_range

/-- Read `n` bytes through a pointer. -/
def Heap.read (hp : Heap) : Ptr → Nat → Except Fault (List Nat)
  | .lib off, n => readBytes hp.lib off n
  | .buf s i off, n =>
    match hp.slots[s]? with
    | some sv => readBytes (sv.get i) off n
    | none => .error .out_of_range

/-- Write the bytes `bs` through a pointer. -/
def Heap.write (hp : Heap) : Ptr → List Nat → Except Fault Heap
  | .lib off, bs =>
    match writeBytes hp.lib off bs with
    | .ok m => .ok { hp with lib := m }
    | .error e => .error e
  | .buf s i off, bs =>
    match hp.slots[s]? with
    | some sv =>
      match writeBytes (sv.get i) off bs with
      | .ok b => .ok { hp with slots := hp.slots.set s (sv.set i b) }
      | .error e => .error e
    | none => .error .out_of_range

/-- The C `memmove(dst, src, n)`: the `n` source bytes are read first, then
stored at the destination, so overlapping ranges are handled. -/
def memmove (hp : Heap) (dst src : Ptr) (n : Nat) : Except Fault Heap :=
  match hp.read src n with
  | .ok bs => hp.write dst bs
  | .error e => .error e

/-! ## Operations of `sm64` -/

/-- Modelled from the spec: `sm64::_impl_locate` is only declared in the header;
it resolves a symbol in the loaded module and fails with `shared_lib_error`
when the symbol cannot be resolved. -/
def sm64._impl_locate (h : sm64) (symbol : String) : Except Fault Int :=
  match h._lib symbol with
  | some a => .ok a
  | none => .error .shared_lib_error

/-- The `sm64::locate` template: the symbol address plus a byte offset. -/
def sm64.locate (h : sm64) (symbol : String) (offset : Int) : Except Fault Int :=
  match h._impl_locate symbol with
  | .ok a => .ok (a + offset)
  | .error e => .error e

/-- The `sm64::allocate_slot` method: each buffer is a vector of
`_regions[i].size` value-initialised bytes. -/
def sm64.allocate_slot (h : sm64) : savestate :=
  let result : savestate := ⟨([], [])⟩
  let result := result.set 0 (List.replicate (h.region 0).size 0)
  let result := result.set 1 (List.replicate (h.region 1).size 0)
  result

/-- One iteration of the loop of `sm64::save_slot`. -/
def sm64.save_slot_iter (h : sm64) (save : Nat) (i : Fin 2) (hp : Heap) : Except Fault Heap :=
  let segment := h.region i
  memmove hp (.buf save i 0) (.lib segment.address) segment.size

/-- The `sm64::save_slot` method: the loop runs for `i = 0` and `i = 1`. -/
def sm64.save_slot (h : sm64) (hp : Heap) (save : Nat) : Except Fault Heap :=
  match h.save_slot_iter save 0 hp with
  | .ok hp1 => h.save_slot_iter save 1 hp1
  | .error e => .error e

/-- One iteration of the loop of `sm64::load_slot`. -/
def sm64.load_slot_iter (h : sm64) (save : Nat) (i : Fin 2) (hp : Heap) : Except Fault Heap :=
  let segment := h.region i
  memmove hp (.lib segment.address) (.buf save i 0) segment.size

/-- The `sm64::load_slot` method: the loop runs for `i = 0` and `i = 1`. -/
def sm64.load_slot (h : sm64) (hp : Heap) (save : Nat) : Except Fault Heap :=
  match h.load_slot_iter save 0 hp with
  | .ok hp1 => h.load_slot_iter save 1 hp1
  | .error e => .error e

/-- Name of the controller input structure in the module. -/
def gControllerPads : String := "gControllerPads"

/-- Name of the object pool in the module. -/
def gObjectPool : String := "gObjectPool"

/-- The store `*(uint16_t*)p = v`, little endian as on the x86 targets of the module. -/
def store_u16 (hp : Heap) (p : Int) (v : Nat) : Except Fault Heap :=
  hp.write (.lib p) [v % 256, v / 256 % 256]

/-- The store `*(int8_t*)p = v`, two's complement. -/
def store_i8 (hp : Heap) (p : Int) (v : Int) : Except Fault Heap :=
  hp.write (.lib p) [(v % 256).toNat]

/-- The fetch `*(uint16_t*)p` from the module image. -/
def load_u16 (m : List Nat) (p : Int) : Except Fault Nat :=
  match readBytes m p 2 with
  | .ok bs => .ok (bs.getD 0 0 + 256 * bs.getD 1 0)
  | .error e => .error e

/-- The fetch `*(int8_t*)p` from the module image. -/
def load_i8 (m : List Nat) (p : Int) : Except Fault Int :=
  match readBytes m p 1 with
  | .ok bs => .ok (if bs.getD 0 0 < 128 then (bs.getD 0 0 : Int) else (bs.getD 0 0 : Int) - 256)
  | .error e => .error e

/-- The `sm64::set_input` method with arguments `uint16_t buttons`,
`int8_t stick_x`, `int8_t stick_y`. -/
def sm64.set_input (h : sm64) (hp : Heap) (buttons : Nat) (stick_x stick_y : Int) :
    Except Fault Heap :=
  match h.locate gControllerPads 0 with
  | .error e => .error e
  | .ok p0 =>
    match store_u16 hp p0 buttons with
    | .error e => .error e
    | .ok hp1 =>
      match h.locate gControllerPads 2 with
      | .error e => .error e
      | .ok p2 =>
        match store_i8 hp1 p2 stick_x with
        | .error e => .error e
        | .ok hp2 =>
          match h.locate gControllerPads 3 with
          | .error e => .error e
          | .ok p3 => store_i8 hp2 p3 stick_y

/-- Wrap a mathematical integer to the 32-bit signed `int` range. -/
def wrap_int32 (x : Int) : Int :=
  (x + 2147483648) % 4294967296 - 2147483648

/-- The `int` expression `(i * 1392) + 160` for a `uint16_t i` promoted to `int`. -/
def object_offset (i : Nat) : Int :=
  wrap_int32 (wrap_int32 ((i : Int) * 1392) + 160)

/-- The `sm64::copy_object` method with arguments `uint16_t src`, `uint16_t dst`. -/
def sm64.copy_object (h : sm64) (hp : Heap) (src dst : Nat) : Except Fault Heap :=
  match h.locate gObjectPool (object_offset src) with
  | .error e => .error e
  | .ok src_ptr =>
    match h.locate gObjectPool (object_offset dst) with
    | .error e => .error e
    | .ok dst_ptr => memmove hp (.lib dst_ptr) (.lib src_ptr) 1232

/-- Modelled from the spec: `sm64::advance` is only declared in the header; it
invokes the frame-step entry point of the loaded module exactly once. The
frame step of the module is the parameter `step`, one fixed function of the
module image. -/
def sm64.advance (_h : sm64) (step : List Nat → List Nat) (hp : Heap) : Heap :=
  { hp with lib := step hp.lib }

/-- One replayed frame: `load_slot(save)`, then `set_input`, then `advance()`. -/
def sm64.replay_frame (h : sm64) (step : List Nat → List Nat) (hp : Heap) (save : Nat)
    (buttons : Nat) (stick_x stick_y : Int) : Except Fault Heap :=
  match h.load_slot hp save with
  | .error e => .error e
  | .ok hp1 =>
    match h.set_input hp1 buttons stick_x stick_y with
    | .error e => .error e
    | .ok hp2 => .ok (h.advance step hp2)

/-- The call `locate(symbol)` with the default argument `offset = 0`. -/
def sm64.locate_default (h : sm64) (symbol : String) : Except Fault Int :=
  h.locate symbol 0

/-- The call `locate(symbol, offset)` as a step on the heap: the body is a
lookup followed by pointer arithmetic and contains no store, so the heap is
handed on as it was received. -/
def sm64.locate_step (h : sm64) (hp : Heap) (symbol : String) (offset : Int) :
    Except Fault (Int × Heap) :=
  match h.locate symbol offset with
  | .ok a => .ok (a, hp)
  | .error e => .error e

/-- Wrap a mathematical integer to the 64-bit signed `ptrdiff_t` range. -/
def wrap_int64 (x : Int) : Int :=
  (x + 9223372036854775808) % 18446744073709551616 - 9223372036854775808

/-- Modelled from the spec: the `input_frame` record is declared in
`libsm64_utils/movie.hpp`, which is not part of the sources at hand; it holds a
16-bit button mask and the signed 8-bit X and Y axes of the stick. -/
structure input_frame where
  m_buttons : Nat
  m_stick_x : Int
  m_stick_y : Int
deriving DecidableEq, Repr

/-- The `sm64::set_input(input_frame)` overload. -/
def sm64.set_input_frame (h : sm64) (hp : Heap) (input : input_frame) : Except Fault Heap :=
  h.set_input hp input.m_buttons input.m_stick_x input.m_stick_y

/-- The spec's reading of the overload: the three fields, in the order buttons,
X axis, Y axis, are handed to the primitive `set_input`. -/
def set_input_forwarded (h : sm64) (hp : Heap) (f : input_frame) : Except Fault Heap :=
  sm64.set_input h hp f.m_buttons f.m_stick_x f.m_stick_y

/-- The caller stores a savestate it received by value; its index is the
previous number of stored savestates. -/
def Heap.push (hp : Heap) (s : savestate) : Heap :=
  { hp with slots := hp.slots ++ [s] }

/-- A handle operation that takes a savestate reference. -/
inductive slot_op where
  | save (a : Nat)
  | load (a : Nat)
deriving DecidableEq, Repr

/-- Run one savestate operation of the handle. -/
def sm64.apply (h : sm64) (hp : Heap) : slot_op → Except Fault Heap
  | .save a => h.save_slot hp a
  | .load a => h.load_slot hp a

/-- Run a sequence of savestate operations, stopping at the first fault. -/
def sm64.run (h : sm64) : List slot_op → Heap → Except Fault Heap
  | [], hp => .ok hp
  | op :: ops, hp =>
    match h.apply hp op with
    | .ok hp1 => h.run ops hp1
    | .error e => .error e

/-- The lengths of the two buffers of every stored savestate. -/
def Heap.buffer_lengths (hp : Heap) : List (Nat × Nat) :=
  hp.slots.map (fun sv => ((sv.get 0).length, (sv.get 1).length))

/-! ## Well-formedness predicates used by the statements -/

/-- The region lies inside the object `m`. -/
def mem_region.inside (r : mem_region) (m : List Nat) : Prop :=
  0 ≤ r.address ∧ r.address.toNat + r.size ≤ m.length

instance (r : mem_region) (m : List Nat) : Decidable (r.inside m) := by
  unfold mem_region.inside
  infer_instance

/-- Both regions of the handle lie inside the module image `m`. -/
def sm64.regions_inside (h : sm64) (m : List Nat) : Prop :=
  (h.region 0).inside m ∧ (h.region 1).inside m

instance (h : sm64) (m : List Nat) : Decidable (h.regions_inside m) := by
  unfold sm64.regions_inside
  infer_instance

/-- The size precondition of `save_slot` and `load_slot`: buffer `i` has
length `_regions[i].size`. -/
def sm64.sized (h : sm64) (sv : savestate) : Prop :=
  (sv.get 0).length = (h.region 0).size ∧ (sv.get 1).length = (h.region 1).size

instance (h : sm64) (sv : savestate) : Decidable (h.sized sv) := by
  unfold sm64.sized
  infer_instance

/-- The bytes of region `i` in the module image `m`. -/
def sm64.region_bytes (h : sm64) (m : List Nat) (i : Fin 2) : Except Fault (List Nat) :=
  readBytes m (h.region i).address (h.region i).size

/-- Byte index `k` of the module image belongs to the region. -/
def mem_region.contains (r : mem_region) (k : Nat) : Prop :=
  0 ≤ r.address ∧ r.address.toNat ≤ k ∧ k < r.address.toNat + r.size

instance (r : mem_region) (k : Nat) : Decidable (r.contains k) := by
  unfold mem_region.contains
  infer_instance

/-- No byte index belongs to both regions. -/
def mem_region.disjoint (r s : mem_region) : Prop :=
  r.size = 0 ∨ s.size = 0 ∨ r.address.toNat + r.size ≤ s.address.toNat ∨
    s.address.toNat + s.size ≤ r.address.toNat

instance (r s : mem_region) : Decidable (r.disjoint s) := by
  unfold mem_region.disjoint
  infer_instance

/-- Byte index `k` of the module image is one of the four bytes that
`set_input` stores, for the input structure at offset `p`. -/
def pads_contains (p : Int) (k : Nat) : Prop :=
  p.toNat ≤ k ∧ k < p.toNat + 4

instance (p : Int) (k : Nat) : Decidable (pads_contains p k) := by
  unfold pads_contains
  infer_instance

/-- The effect of the frame step on the two regions depends only on the bytes
selected by `K`: two module images of the same length that agree on those bytes
have the same region contents after the step. -/
def sm64.step_reads_only (h : sm64) (step : List Nat → List Nat) (K : Nat → Prop) : Prop :=
  ∀ x y : List Nat, x.length = y.length → (∀ k, K k → x[k]? = y[k]?) →
    ∀ i, h.region_bytes (step x) i = h.region_bytes (step y) i

/-- The two runs of `load_slot(save)`, `set_input`, `advance()` from the module
images `m1` and `m2` complete and give the same contents in both regions. -/
def sm64.replay_agrees (h : sm64) (step : List Nat → List Nat) (slots : List savestate)
    (m1 m2 : List Nat) (save : Nat) (buttons : Nat) (stick_x stick_y : Int) : Prop :=
  ∃ hp1 hp2,
    h.replay_frame step { lib := m1, slots := slots } save buttons stick_x stick_y = .ok hp1 ∧
    h.replay_frame step { lib := m2, slots := slots } save buttons stick_x stick_y = .ok hp2 ∧
    ∀ i, h.region_bytes hp1.lib i = h.region_bytes hp2.lib i

/-! ## Concrete data used to exercise the statements -/

/-- A handle whose regions are bytes 0..1 and byte 2 of the module image. -/
def demo_handle : sm64 :=
  { _lib := fun _ => none, _version := version.US, _regions := (⟨0, 2⟩, ⟨2, 1⟩) }

/-- A four-byte module image together with two stored savestates. -/
def demo_heap : Heap :=
  { lib := [7, 8, 9, 10], slots := [⟨([1, 1], [1])⟩, ⟨([5, 6], [4])⟩] }

/-- A handle whose two regions share byte 1 of the module image. -/
def overlap_handle : sm64 :=
  { _lib := fun _ => none, _version := version.US, _regions := (⟨0, 2⟩, ⟨1, 2⟩) }

/-- A three-byte module image and one savestate sized for `overlap_handle`. -/
def overlap_heap : Heap :=
  { lib := [0, 0, 0], slots := [⟨([1, 2], [3, 4])⟩] }

/-- A handle of a module that exports the input structure at offset 1 and the
object pool at offset 8. -/
def pads_handle : sm64 :=
  { _lib := fun s =>
      if s = gControllerPads then some 1 else if s = gObjectPool then some 8 else none,
    _version := version.JP, _regions := (⟨0, 4⟩, ⟨4, 4⟩) }

/-- An eight-byte module image and no savestate. -/
def pads_heap : Heap :=
  { lib := [9, 9, 9, 9, 9, 9, 9, 9], slots := [] }

/-- A module image holding two object slots after the eight leading bytes; byte
`k` has value `k`, so the two slots differ everywhere. -/
def pool_heap : Heap :=
  { lib := List.range 2792, slots := [] }

/-- The heap reached from `demo_heap` by a save into savestate 0, a load from
savestate 1 and another save into savestate 0. -/
def demo_heap_after : Heap :=
  { lib := [5, 6, 4, 10], slots := [⟨([5, 6], [4])⟩, ⟨([5, 6], [4])⟩] }

/-- A handle of a module with the input structure at bytes 0..3 and the two
regions at byte 4 and byte 5; byte 6 belongs to no region. -/
def frame_handle : sm64 :=
  { _lib := fun s => if s = gControllerPads then some 0 else none,
    _version := version.US, _regions := (⟨4, 1⟩, ⟨5, 1⟩) }

/-- A frame step that copies byte 6 of the module image into byte 4. -/
def leaky_step (m : List Nat) : List Nat :=
  m.set 4 (m.getD 6 0)

/-- A frame step that copies byte 0 of the module image, the low byte of the
buttons of `frame_handle`, into byte 4. -/
def echo_step (m : List Nat) : List Nat :=
  m.set 4 (m.getD 0 0)

/-! # Theorems -/

/-! ## Facts about the raw memory primitives -/

theorem readBytes_ok_iff (m : List Nat) (off : Int) (n : Nat) (bs : List Nat) :
    readBytes m off n = .ok bs ↔
      (0 ≤ off ∧ off.toNat + n ≤ m.length) ∧ bs = (m.drop off.toNat).take n := by
  unfold readBytes
  split
  · next hc => simp [hc, eq_comm]
  · next hc => simp [hc]

theorem readBytes_of_bounds (m : List Nat) (off : Int) (n : Nat)
    (h0 : 0 ≤ off) (h1 : off.toNat + n ≤ m.length) :
    readBytes m off n = .ok ((m.drop off.toNat).take n) := by
  simp [readBytes, h0, h1]

theorem writeBytes_ok_iff (m : List Nat) (off : Int) (bs m' : List Nat) :
    writeBytes m off bs = .ok m' ↔
      (0 ≤ off ∧ off.toNat + bs.length ≤ m.length) ∧
        m' = m.take off.toNat ++ bs ++ m.drop (off.toNat + bs.length) := by
  unfold writeBytes
  split
  · next hc => simp [hc, eq_comm]
  · next hc => simp [hc]

theorem writeBytes_of_bounds (m : List Nat) (off : Int) (bs : List Nat)
    (h0 : 0 ≤ off) (h1 : off.toNat + bs.length ≤ m.length) :
    writeBytes m off bs = .ok (m.take off.toNat ++ bs ++ m.drop (off.toNat + bs.length)) := by
  simp [writeBytes, h0, h1]

theorem readBytes_length {m : List Nat} {off : Int} {n : Nat} {bs : List Nat}
    (h : readBytes m off n = .ok bs) : bs.length = n := by
  obtain ⟨⟨_, hb⟩, rfl⟩ := (readBytes_ok_iff m off n bs).1 h
  simp only [List.length_take, List.length_drop]
  omega

theorem writeBytes_length {m : List Nat} {off : Int} {bs m' : List Nat}
    (h : writeBytes m off bs = .ok m') : m'.length = m.length := by
  obtain ⟨⟨_, hb⟩, rfl⟩ := (writeBytes_ok_iff m off bs m').1 h
  simp only [List.length_append, List.length_take, List.length_drop]
  omega

/-- Storing back the bytes that were read from a range leaves the object as it was. -/
theorem writeBytes_readBytes {m : List Nat} {off : Int} {n : Nat} {bs : List Nat}
    (h : readBytes m off n = .ok bs) : writeBytes m off bs = .ok m := by
  have hl := readBytes_length h
  obtain ⟨⟨h0, hb⟩, rfl⟩ := (readBytes_ok_iff m off n bs).1 h
  rw [writeBytes_of_bounds m off _ h0 (by rw [hl]; exact hb), hl]
  congr 1
  rw [List.append_assoc, ← List.drop_drop, List.take_append_drop, List.take_append_drop]

/-- Reading a range that was just stored gives the stored bytes. -/
theorem readBytes_writeBytes {m : List Nat} {off : Int} {bs m' : List Nat}
    (h : writeBytes m off bs = .ok m') : readBytes m' off bs.length = .ok bs := by
  have hl := writeBytes_length h
  obtain ⟨⟨h0, hb⟩, rfl⟩ := (writeBytes_ok_iff m off bs m').1 h
  rw [readBytes_of_bounds _ off _ h0 (by rw [hl]; exact hb)]
  congr 1
  have ht : (m.take off.toNat).length = off.toNat := by
    rw [List.length_take]; omega
  rw [List.append_assoc, List.drop_left' ht, List.take_left' rfl]

/-- Byte-wise description of a store. -/
theorem writeBytes_getElem? {m : List Nat} {off : Int} {bs m' : List Nat}
    (h : writeBytes m off bs = .ok m') (k : Nat) :
    m'[k]? = if off.toNat ≤ k ∧ k < off.toNat + bs.length then bs[k - off.toNat]? else m[k]? := by
  obtain ⟨⟨_, hb⟩, rfl⟩ := (writeBytes_ok_iff m off bs m').1 h
  have ht : (m.take off.toNat).length = off.toNat := by
    rw [List.length_take]; omega
  by_cases h1 : k < off.toNat
  · rw [if_neg (by omega), List.append_assoc, List.getElem?_append_left (by omega),
      List.getElem?_take_of_lt h1]
  · by_cases h2 : k < off.toNat + bs.length
    · rw [if_pos ⟨by omega, h2⟩, List.append_assoc, List.getElem?_append_right (by omega), ht,
        List.getElem?_append_left (by omega)]
    · rw [if_neg (by omega), List.getElem?_append_right (by simp [ht]; omega),
        List.getElem?_drop]
      congr 1
      simp only [List.length_append, ht]
      omega

/-- Byte-wise description of a fetch. -/
theorem readBytes_getElem? {m : List Nat} {off : Int} {n : Nat} {bs : List Nat}
    (h : readBytes m off n = .ok bs) (j : Nat) (hj : j < n) :
    bs[j]? = m[off.toNat + j]? := by
  obtain ⟨_, rfl⟩ := (readBytes_ok_iff m off n bs).1 h
  rw [List.getElem?_take_of_lt hj, List.getElem?_drop]

/-- A fetch is determined by the bytes of the range. -/
theorem readBytes_eq_of_getElem? (m : List Nat) (off : Int) (bs : List Nat)
    (h0 : 0 ≤ off) (hb : off.toNat + bs.length ≤ m.length)
    (hk : ∀ j, j < bs.length → m[off.toNat + j]? = bs[j]?) :
    readBytes m off bs.length = .ok bs := by
  rw [readBytes_of_bounds m off _ h0 hb]
  congr 1
  apply List.ext_getElem?
  intro j
  by_cases hj : j < bs.length
  · rw [List.getElem?_take_of_lt hj, List.getElem?_drop, hk j hj]
  · rw [List.getElem?_eq_none (by simp; omega), List.getElem?_eq_none (by omega)]

/-! ## Facts about `savestate` access -/

@[simp] theorem savestate.get_set_same (s : savestate) (i : Fin 2) (b : List Nat) :
    (s.set i b).get i = b := by
  unfold savestate.get savestate.set
  split <;> simp_all

theorem savestate.get_set_other (s : savestate) (i j : Fin 2) (b : List Nat) (hij : j ≠ i) :
    (s.set i b).get j = s.get j := by
  fin_cases i <;> fin_cases j <;> simp_all [savestate.get, savestate.set]

theorem savestate.ext_get (s t : savestate) (h0 : s.get 0 = t.get 0) (h1 : s.get 1 = t.get 1) :
    s = t := by
  obtain ⟨⟨a, b⟩⟩ := s
  obtain ⟨⟨c, d⟩⟩ := t
  simp [savestate.get] at h0 h1
  simp [h0, h1]

/-! ## One loop iteration of `save_slot` and `load_slot` -/

theorem save_slot_iter_ok_iff (h : sm64) (a : Nat) (i : Fin 2) (hp hp' : Heap) :
    h.save_slot_iter a i hp = .ok hp' ↔
      ∃ sv bs b, hp.slots[a]? = some sv ∧ h.region_bytes hp.lib i = .ok bs ∧
        writeBytes (sv.get i) 0 bs = .ok b ∧
        hp' = { hp with slots := hp.slots.set a (sv.set i b) } := by
  unfold sm64.save_slot_iter memmove Heap.read Heap.write sm64.region_bytes
  simp only
  cases hr : readBytes hp.lib (h.region i).address (h.region i).size with
  | error e => simp
  | ok bs =>
    cases hs : hp.slots[a]? with
    | none => simp
    | some sv =>
      cases hw : writeBytes (sv.get i) 0 bs with
      | error e => simp [hw]
      | ok b => simp [hw, eq_comm]

theorem load_slot_iter_ok_iff (h : sm64) (a : Nat) (i : Fin 2) (hp hp' : Heap) :
    h.load_slot_iter a i hp = .ok hp' ↔
      ∃ sv bs m, hp.slots[a]? = some sv ∧ readBytes (sv.get i) 0 (h.region i).size = .ok bs ∧
        writeBytes hp.lib (h.region i).address bs = .ok m ∧
        hp' = { hp with lib := m } := by
  unfold sm64.load_slot_iter memmove Heap.read Heap.write
  simp only
  cases hs : hp.slots[a]? with
  | none => simp
  | some sv =>
    cases hr : readBytes (sv.get i) 0 (h.region i).size with
    | error e => simp [hr]
    | ok bs =>
      cases hw : writeBytes hp.lib (h.region i).address bs with
      | error e => simp [hr, hw]
      | ok m => simp [hr, hw, eq_comm]

/-! ## Closed forms of `save_slot` and `load_slot` -/

theorem save_slot_ok_iff (h : sm64) (hp hp' : Heap) (a : Nat) :
    h.save_slot hp a = .ok hp' ↔
      ∃ sv bs0 bs1 b0 b1, hp.slots[a]? = some sv ∧
        h.region_bytes hp.lib 0 = .ok bs0 ∧ h.region_bytes hp.lib 1 = .ok bs1 ∧
        writeBytes (sv.get 0) 0 bs0 = .ok b0 ∧ writeBytes (sv.get 1) 0 bs1 = .ok b1 ∧
        hp' = { hp with slots := hp.slots.set a ⟨(b0, b1)⟩ } := by
  unfold sm64.save_slot
  constructor
  · intro hs
    cases h0 : h.save_slot_iter a 0 hp with
    | error e => simp [h0] at hs
    | ok hp1 =>
      simp only [h0] at hs
      obtain ⟨sv, bs0, b0, hsv, hr0, hw0, rfl⟩ := (save_slot_iter_ok_iff h a 0 hp hp1).1 h0
      obtain ⟨sv1, bs1, b1, hsv1, hr1, hw1, rfl⟩ := (save_slot_iter_ok_iff h a 1 _ hp').1 hs
      have hlt : a < hp.slots.length := by
        rcases List.getElem?_eq_some_iff.1 hsv with ⟨hlt, _⟩
        exact hlt
      simp only [List.getElem?_set_self hlt, Option.some.injEq] at hsv1
      subst hsv1
      rw [savestate.get_set_other _ _ _ _ (by decide)] at hw1
      refine ⟨sv, bs0, bs1, b0, b1, hsv, hr0, hr1, hw0, hw1, ?_⟩
      simp [List.set_set, savestate.set]
  · rintro ⟨sv, bs0, bs1, b0, b1, hsv, hr0, hr1, hw0, hw1, rfl⟩
    have hlt : a < hp.slots.length := by
      rcases List.getElem?_eq_some_iff.1 hsv with ⟨hlt, _⟩
      exact hlt
    have h0 : h.save_slot_iter a 0 hp
        = .ok { hp with slots := hp.slots.set a (sv.set 0 b0) } :=
      (save_slot_iter_ok_iff h a 0 hp _).2 ⟨sv, bs0, b0, hsv, hr0, hw0, rfl⟩
    simp only [h0]
    refine (save_slot_iter_ok_iff h a 1 _ _).2 ⟨sv.set 0 b0, bs1, b1, ?_, hr1, ?_, ?_⟩
    · simp [List.getElem?_set_self hlt]
    · rw [savestate.get_set_other _ _ _ _ (by decide)]
      exact hw1
    · simp [List.set_set, savestate.set]

theorem load_slot_ok_iff (h : sm64) (hp hp' : Heap) (a : Nat) :
    h.load_slot hp a = .ok hp' ↔
      ∃ sv bs0 bs1 m1 m2, hp.slots[a]? = some sv ∧
        readBytes (sv.get 0) 0 (h.region 0).size = .ok bs0 ∧
        writeBytes hp.lib (h.region 0).address bs0 = .ok m1 ∧
        readBytes (sv.get 1) 0 (h.region 1).size = .ok bs1 ∧
        writeBytes m1 (h.region 1).address bs1 = .ok m2 ∧
        hp' = { hp with lib := m2 } := by
  unfold sm64.load_slot
  constructor
  · intro hs
    cases h0 : h.load_slot_iter a 0 hp with
    | error e => simp [h0] at hs
    | ok hp1 =>
      simp only [h0] at hs
      obtain ⟨sv, bs0, m1, hsv, hr0, hw0, rfl⟩ := (load_slot_iter_ok_iff h a 0 hp hp1).1 h0
      obtain ⟨sv1, bs1, m2, hsv1, hr1, hw1, rfl⟩ := (load_slot_iter_ok_iff h a 1 _ hp').1 hs
      simp only [hsv, Option.some.injEq] at hsv1
      subst hsv1
      exact ⟨sv, bs0, bs1, m1, m2, hsv, hr0, hw0, hr1, hw1, rfl⟩
  · rintro ⟨sv, bs0, bs1, m1, m2, hsv, hr0, hw0, hr1, hw1, rfl⟩
    have h0 : h.load_slot_iter a 0 hp = .ok { hp with lib := m1 } :=
      (load_slot_iter_ok_iff h a 0 hp _).2 ⟨sv, bs0, m1, hsv, hr0, hw0, rfl⟩
    simp only [h0]
    exact (load_slot_iter_ok_iff h a 1 _ _).2 ⟨sv, bs1, m2, hsv, hr1, hw1, rfl⟩

theorem readBytes_zero_full (bs : List Nat) (n : Nat) (hn : bs.length = n) :
    readBytes bs 0 n = .ok bs := by
  rw [readBytes_of_bounds bs 0 n (le_refl 0) (by simp [hn])]
  simp [← hn]

theorem writeBytes_zero_full (b bs : List Nat) (hn : bs.length = b.length) :
    writeBytes b 0 bs = .ok bs := by
  rw [writeBytes_of_bounds b 0 bs (le_refl 0) (by simp [hn])]
  simp [hn]

theorem region_bytes_of_inside (h : sm64) (m : List Nat) (i : Fin 2)
    (hin : (h.region i).inside m) :
    h.region_bytes m i
      = .ok ((m.drop (h.region i).address.toNat).take (h.region i).size) :=
  readBytes_of_bounds m _ _ hin.1 hin.2

theorem regions_inside_each (h : sm64) (m : List Nat) (hin : h.regions_inside m) (i : Fin 2) :
    (h.region i).inside m := by
  fin_cases i
  · exact hin.1
  · exact hin.2

/-- Under the size precondition a save succeeds and stores the two region images. -/
theorem save_slot_sized (h : sm64) (hp : Heap) (a : Nat) (sv : savestate)
    (hsv : hp.slots[a]? = some sv) (hin : h.regions_inside hp.lib) (hsz : h.sized sv) :
    h.save_slot hp a = .ok { hp with slots := hp.slots.set a (savestate.mk
      ((hp.lib.drop (h.region 0).address.toNat).take (h.region 0).size,
        (hp.lib.drop (h.region 1).address.toNat).take (h.region 1).size)) } := by
  have hr0 := region_bytes_of_inside h hp.lib 0 hin.1
  have hr1 := region_bytes_of_inside h hp.lib 1 hin.2
  refine (save_slot_ok_iff h hp _ a).2 ⟨sv, _, _, _, _, hsv, hr0, hr1, ?_, ?_, rfl⟩
  · exact writeBytes_zero_full _ _ (by rw [readBytes_length hr0, hsz.1])
  · exact writeBytes_zero_full _ _ (by rw [readBytes_length hr1, hsz.2])

/-- Under the size precondition a load succeeds and stores buffer 0, then buffer 1. -/
theorem load_slot_sized (h : sm64) (hp : Heap) (a : Nat) (sv : savestate)
    (hsv : hp.slots[a]? = some sv) (hin : h.regions_inside hp.lib) (hsz : h.sized sv) :
    ∃ m1 m2, writeBytes hp.lib (h.region 0).address (sv.get 0) = .ok m1 ∧
      writeBytes m1 (h.region 1).address (sv.get 1) = .ok m2 ∧
      h.load_slot hp a = .ok { hp with lib := m2 } := by
  obtain ⟨m1, hw0⟩ : ∃ m1, writeBytes hp.lib (h.region 0).address (sv.get 0) = .ok m1 :=
    ⟨_, writeBytes_of_bounds hp.lib (h.region 0).address (sv.get 0) hin.1.1
      (by rw [hsz.1]; exact hin.1.2)⟩
  have hl1 := writeBytes_length hw0
  have hw1 := writeBytes_of_bounds m1 (h.region 1).address (sv.get 1) hin.2.1
    (by rw [hsz.2, hl1]; exact hin.2.2)
  refine ⟨m1, _, hw0, hw1, ?_⟩
  exact (load_slot_ok_iff h hp _ a).2 ⟨sv, _, _, _, _, hsv,
    readBytes_zero_full _ _ hsz.1, hw0, readBytes_zero_full _ _ hsz.2, hw1, rfl⟩

theorem allocate_slot_get (h : sm64) (i : Fin 2) :
    h.allocate_slot.get i = List.replicate (h.region i).size 0 := by
  fin_cases i <;> simp [sm64.allocate_slot, savestate.get, savestate.set]

theorem allocate_slot_is_sized (h : sm64) : h.sized h.allocate_slot := by
  simp [sm64.sized, allocate_slot_get]

/-- Success and postcondition of a save under the size precondition. -/
theorem save_slot_sized_post (h : sm64) (hp : Heap) (a : Nat) (sv : savestate)
    (hsv : hp.slots[a]? = some sv) (hin : h.regions_inside hp.lib) (hsz : h.sized sv) :
    ∃ hp' sv', h.save_slot hp a = .ok hp' ∧ hp'.slots[a]? = some sv' ∧
      (∀ i : Fin 2, sv'.get i
        = (hp.lib.drop (h.region i).address.toNat).take (h.region i).size) ∧
      hp'.lib = hp.lib := by
  have hlt : a < hp.slots.length := (List.getElem?_eq_some_iff.1 hsv).1
  refine ⟨_, savestate.mk
    ((hp.lib.drop (h.region 0).address.toNat).take (h.region 0).size,
      (hp.lib.drop (h.region 1).address.toNat).take (h.region 1).size),
    save_slot_sized h hp a sv hsv hin hsz, ?_, ?_, rfl⟩
  · simp [List.getElem?_set_self hlt]
  · intro i
    fin_cases i <;> simp [savestate.get]

/-- Loading a savestate whose buffers hold the current region images changes nothing. -/
theorem load_slot_of_captured (h : sm64) (hp : Heap) (a : Nat) (sv : savestate)
    (hsv : hp.slots[a]? = some sv)
    (hc : ∀ i : Fin 2, h.region_bytes hp.lib i = .ok (sv.get i)) :
    h.load_slot hp a = .ok hp := by
  refine (load_slot_ok_iff h hp hp a).2
    ⟨sv, sv.get 0, sv.get 1, hp.lib, hp.lib, hsv, ?_, ?_, ?_, ?_, rfl⟩
  · exact readBytes_zero_full _ _ (readBytes_length (hc 0))
  · exact writeBytes_readBytes (hc 0)
  · exact readBytes_zero_full _ _ (readBytes_length (hc 1))
  · exact writeBytes_readBytes (hc 1)

/-- Byte-wise effect of a load under the size precondition: buffer 1 lands on
region 1, buffer 0 on the part of region 0 that region 1 does not cover, and
the rest of the module image is kept. -/
theorem load_slot_sized_bytes (h : sm64) (hp : Heap) (a : Nat) (sv : savestate)
    (hsv : hp.slots[a]? = some sv) (hin : h.regions_inside hp.lib) (hsz : h.sized sv) :
    ∃ hp', h.load_slot hp a = .ok hp' ∧ hp'.slots = hp.slots ∧
      hp'.lib.length = hp.lib.length ∧
      ∀ k, hp'.lib[k]? =
        if (h.region 1).contains k then (sv.get 1)[k - (h.region 1).address.toNat]?
        else if (h.region 0).contains k then (sv.get 0)[k - (h.region 0).address.toNat]?
        else hp.lib[k]? := by
  obtain ⟨m1, m2, hw0, hw1, hl⟩ := load_slot_sized h hp a sv hsv hin hsz
  refine ⟨_, hl, rfl, ?_, fun k => ?_⟩
  · show m2.length = hp.lib.length
    rw [writeBytes_length hw1, writeBytes_length hw0]
  · show m2[k]? = _
    rw [writeBytes_getElem? hw1 k, writeBytes_getElem? hw0 k, hsz.1, hsz.2]
    have h0 := hin.1.1
    have h1 := hin.2.1
    simp only [mem_region.contains, h0, h1, true_and]

theorem locate_of_lib (h : sm64) (symbol : String) (a offset : Int)
    (hs : h._lib symbol = some a) : h.locate symbol offset = .ok (a + offset) := by
  simp [sm64.locate, sm64._impl_locate, hs]

/-- Success of a store into the module image. -/
theorem write_lib_ok (hp : Heap) (p : Int) (bs : List Nat)
    (h0 : 0 ≤ p) (hb : p.toNat + bs.length ≤ hp.lib.length) :
    ∃ m, writeBytes hp.lib p bs = .ok m ∧ hp.write (.lib p) bs = .ok { hp with lib := m } := by
  refine ⟨_, writeBytes_of_bounds hp.lib p bs h0 hb, ?_⟩
  simp [Heap.write, writeBytes_of_bounds hp.lib p bs h0 hb]

/-- Byte-wise effect of `set_input` when the input structure lies inside the
module image. -/
theorem set_input_bytes (h : sm64) (hp : Heap) (buttons : Nat) (stick_x stick_y p : Int)
    (hs : h._lib gControllerPads = some p) (h0 : 0 ≤ p) (hb : p.toNat + 4 ≤ hp.lib.length) :
    ∃ hp', h.set_input hp buttons stick_x stick_y = .ok hp' ∧ hp'.slots = hp.slots ∧
      hp'.lib.length = hp.lib.length ∧
      ∀ k, hp'.lib[k]? =
        if k = p.toNat then some (buttons % 256)
        else if k = p.toNat + 1 then some (buttons / 256 % 256)
        else if k = p.toNat + 2 then some (stick_x % 256).toNat
        else if k = p.toNat + 3 then some (stick_y % 256).toNat
        else hp.lib[k]? := by
  have t0 : (p + 0).toNat = p.toNat := by simp
  have t2 : (p + 2).toNat = p.toNat + 2 := by omega
  have t3 : (p + 3).toNat = p.toNat + 3 := by omega
  obtain ⟨m1, hw1, hs1⟩ := write_lib_ok hp (p + 0) [buttons % 256, buttons / 256 % 256]
    (by omega) (by simp only [List.length_cons, List.length_nil]; omega)
  have hl1 := writeBytes_length hw1
  obtain ⟨m2, hw2, hs2⟩ := write_lib_ok { hp with lib := m1 } (p + 2) [(stick_x % 256).toNat]
    (by omega) (by show _ ≤ m1.length; simp only [List.length_cons, List.length_nil]; omega)
  have hw2 : writeBytes m1 (p + 2) [(stick_x % 256).toNat] = .ok m2 := hw2
  have hl2 := writeBytes_length hw2
  obtain ⟨m3, hw3, hs3⟩ := write_lib_ok { hp with lib := m2 } (p + 3) [(stick_y % 256).toNat]
    (by omega) (by show _ ≤ m2.length; simp only [List.length_cons, List.length_nil]; omega)
  have hw3 : writeBytes m2 (p + 3) [(stick_y % 256).toNat] = .ok m3 := hw3
  have hl3 := writeBytes_length hw3
  refine ⟨{ hp with lib := m3 }, ?_, rfl, by simp only; omega, fun k => ?_⟩
  · simp only [sm64.set_input, locate_of_lib h _ p _ hs, store_u16, store_i8, hs1, hs2, hs3]
  · show m3[k]? = _
    rw [writeBytes_getElem? hw3 k, writeBytes_getElem? hw2 k, writeBytes_getElem? hw1 k,
      t0, t2, t3]
    simp only [List.length_cons, List.length_nil]
    by_cases k0 : k = p.toNat
    · subst k0
      simp
    · by_cases k1 : k = p.toNat + 1
      · subst k1
        simp
      · by_cases k2 : k = p.toNat + 2
        · subst k2
          simp
        · by_cases k3 : k = p.toNat + 3
          · subst k3
            simp
          · rw [if_neg (by omega), if_neg (by omega), if_neg (by omega), if_neg k0, if_neg k1,
              if_neg k2, if_neg k3]

theorem load_u16_of_bytes (m : List Nat) (p : Int) (lo hi : Nat)
    (hr : readBytes m p 2 = .ok [lo, hi]) : load_u16 m p = .ok (lo + 256 * hi) := by
  simp [load_u16, hr]

theorem load_i8_of_byte (m : List Nat) (p : Int) (b : Nat)
    (hr : readBytes m p 1 = .ok [b]) :
    load_i8 m p = .ok (if b < 128 then (b : Int) else (b : Int) - 256) := by
  simp [load_i8, hr]

/-- A signed byte survives the conversion to its two's complement image and back. -/
theorem int8_round_trip (v : Int) (hlo : -128 ≤ v) (hhi : v ≤ 127) :
    (if (v % 256).toNat < 128 then ((v % 256).toNat : Int) else ((v % 256).toNat : Int) - 256)
      = v := by
  split <;> omega

theorem wrap_int32_of_range (x : Int) (hlo : -2147483648 ≤ x) (hhi : x < 2147483648) :
    wrap_int32 x = x := by
  unfold wrap_int32
  omega

theorem object_offset_of_uint16 (i : Nat) (hi : i < 65536) :
    object_offset i = (i : Int) * 1392 + 160 := by
  unfold object_offset
  rw [wrap_int32_of_range ((i : Int) * 1392) (by omega) (by omega),
    wrap_int32_of_range _ (by omega) (by omega)]

/-- Byte-wise effect of `copy_object` when both slots lie inside the module
image: the 1232 bytes after the first 160 bytes of slot `dst` receive the
corresponding bytes of slot `src`, everything else is kept. -/
theorem copy_object_bytes (h : sm64) (hp : Heap) (src dst : Nat) (p : Int)
    (hs : h._lib gObjectPool = some p) (h0 : 0 ≤ p)
    (hsrc : src < 65536) (hdst : dst < 65536)
    (hbs : p.toNat + src * 1392 + 1392 ≤ hp.lib.length)
    (hbd : p.toNat + dst * 1392 + 1392 ≤ hp.lib.length) :
    ∃ hp', h.copy_object hp src dst = .ok hp' ∧ hp'.slots = hp.slots ∧
      hp'.lib.length = hp.lib.length ∧
      ∀ k, hp'.lib[k]? =
        if p.toNat + dst * 1392 + 160 ≤ k ∧ k < p.toNat + dst * 1392 + 1392 then
          hp.lib[p.toNat + src * 1392 + 160 + (k - (p.toNat + dst * 1392 + 160))]?
        else hp.lib[k]? := by
  have ts : (p + ((src : Int) * 1392 + 160)).toNat = p.toNat + src * 1392 + 160 := by omega
  have td : (p + ((dst : Int) * 1392 + 160)).toNat = p.toNat + dst * 1392 + 160 := by omega
  obtain ⟨bs, hr⟩ : ∃ bs, readBytes hp.lib (p + ((src : Int) * 1392 + 160)) 1232 = .ok bs :=
    ⟨_, readBytes_of_bounds _ _ _ (by omega) (by omega)⟩
  have hlb := readBytes_length hr
  obtain ⟨m, hw, hws⟩ := write_lib_ok hp (p + ((dst : Int) * 1392 + 160)) bs (by omega)
    (by omega)
  refine ⟨{ hp with lib := m }, ?_, rfl, writeBytes_length hw, fun k => ?_⟩
  · simp only [sm64.copy_object, locate_of_lib h _ p _ hs, object_offset_of_uint16 _ hsrc,
      object_offset_of_uint16 _ hdst, memmove, Heap.read, hr, hws]
  · show m[k]? = _
    rw [writeBytes_getElem? hw k, td, hlb]
    by_cases hk : p.toNat + dst * 1392 + 160 ≤ k ∧ k < p.toNat + dst * 1392 + 160 + 1232
    · rw [if_pos hk, if_pos ⟨hk.1, by omega⟩, readBytes_getElem? hr _ (by omega), ts]
    · rw [if_neg hk, if_neg (by omega)]

/-- Frame of a save: the module image is kept and so is every other savestate. -/
theorem save_slot_frame (h : sm64) (hp hp' : Heap) (a : Nat)
    (hs : h.save_slot hp a = .ok hp') :
    hp'.lib = hp.lib ∧ hp'.slots.length = hp.slots.length ∧
      ∀ b, b ≠ a → hp'.slots[b]? = hp.slots[b]? := by
  obtain ⟨sv, bs0, bs1, b0, b1, _, _, _, _, _, rfl⟩ := (save_slot_ok_iff h hp hp' a).1 hs
  refine ⟨rfl, by simp, fun b hb => ?_⟩
  simp [List.getElem?_set, Ne.symm hb]

/-- Frame of a load: no savestate is touched. -/
theorem load_slot_frame (h : sm64) (hp hp' : Heap) (a : Nat)
    (hs : h.load_slot hp a = .ok hp') : hp'.slots = hp.slots := by
  obtain ⟨sv, bs0, bs1, m1, m2, _, _, _, _, _, rfl⟩ := (load_slot_ok_iff h hp hp' a).1 hs
  rfl

/-- A completed save changes no buffer length. -/
theorem save_slot_buffer_lengths (h : sm64) (hp hp' : Heap) (a : Nat)
    (hs : h.save_slot hp a = .ok hp') : hp'.buffer_lengths = hp.buffer_lengths := by
  obtain ⟨sv, bs0, bs1, b0, b1, hsv, _, _, hw0, hw1, rfl⟩ := (save_slot_ok_iff h hp hp' a).1 hs
  have hlt : a < hp.slots.length := (List.getElem?_eq_some_iff.1 hsv).1
  unfold Heap.buffer_lengths
  apply List.ext_getElem?
  intro k
  simp only [List.getElem?_map, List.getElem?_set]
  by_cases hk : a = k
  · subst hk
    simp [hlt, hsv, savestate.get, writeBytes_length hw0, writeBytes_length hw1]
  · simp [hk]

/-- A completed load changes no buffer length. -/
theorem load_slot_buffer_lengths (h : sm64) (hp hp' : Heap) (a : Nat)
    (hs : h.load_slot hp a = .ok hp') : hp'.buffer_lengths = hp.buffer_lengths := by
  unfold Heap.buffer_lengths
  rw [load_slot_frame h hp hp' a hs]

/-- A completed sequence of saves and loads changes no buffer length. -/
theorem run_buffer_lengths (h : sm64) (ops : List slot_op) :
    ∀ hp hp', h.run ops hp = .ok hp' → hp'.buffer_lengths = hp.buffer_lengths := by
  induction ops with
  | nil =>
    intro hp hp' hr
    simp [sm64.run] at hr
    rw [hr]
  | cons op ops ih =>
    intro hp hp' hr
    unfold sm64.run at hr
    cases h1 : h.apply hp op with
    | error e => simp [h1] at hr
    | ok hp1 =>
      simp only [h1] at hr
      rw [ih hp1 hp' hr]
      cases op with
      | save a => exact save_slot_buffer_lengths h hp hp1 a h1
      | load a => exact load_slot_buffer_lengths h hp hp1 a h1

/-- The size predicate of a stored savestate is read off the buffer lengths. -/
theorem sized_of_buffer_lengths (h : sm64) (hp hp' : Heap) (b : Nat) (sv : savestate)
    (hl : hp'.buffer_lengths = hp.buffer_lengths)
    (hsv : hp.slots[b]? = some sv) (hsz : h.sized sv) :
    ∃ sv', hp'.slots[b]? = some sv' ∧ h.sized sv' := by
  have hb := congrArg (fun l => l[b]?) hl
  simp only [Heap.buffer_lengths, List.getElem?_map, hsv, Option.map_some'] at hb
  cases hsv' : hp'.slots[b]? with
  | none => simp [hsv'] at hb
  | some sv' =>
    simp only [hsv', Option.map_some', Option.some.injEq, Prod.mk.injEq] at hb
    exact ⟨sv', rfl, by rw [sm64.sized, hb.1, hb.2]; exact hsz⟩

/-- Success of a replayed frame and the module image before the frame step. -/
theorem replay_frame_bytes (h : sm64) (step : List Nat → List Nat) (hp : Heap) (a : Nat)
    (sv : savestate) (buttons : Nat) (stick_x stick_y p : Int)
    (hsv : hp.slots[a]? = some sv) (hin : h.regions_inside hp.lib) (hsz : h.sized sv)
    (hs : h._lib gControllerPads = some p) (h0 : 0 ≤ p) (hb : p.toNat + 4 ≤ hp.lib.length) :
    ∃ m, h.replay_frame step hp a buttons stick_x stick_y
        = .ok { lib := step m, slots := hp.slots } ∧
      m.length = hp.lib.length ∧
      ∀ k, m[k]? =
        if k = p.toNat then some (buttons % 256)
        else if k = p.toNat + 1 then some (buttons / 256 % 256)
        else if k = p.toNat + 2 then some (stick_x % 256).toNat
        else if k = p.toNat + 3 then some (stick_y % 256).toNat
        else if (h.region 1).contains k then (sv.get 1)[k - (h.region 1).address.toNat]?
        else if (h.region 0).contains k then (sv.get 0)[k - (h.region 0).address.toNat]?
        else hp.lib[k]? := by
  obtain ⟨hp1, hl, hsl, hlen, hk⟩ := load_slot_sized_bytes h hp a sv hsv hin hsz
  obtain ⟨hp2, hi, hsl2, hlen2, hk2⟩ :=
    set_input_bytes h hp1 buttons stick_x stick_y p hs h0 (by rw [hlen]; exact hb)
  refine ⟨hp2.lib, ?_, by rw [hlen2, hlen], fun k => ?_⟩
  · simp only [sm64.replay_frame, hl, hi, sm64.advance, hsl2, hsl]
  · rw [hk2, hk]

/-- Two objects of the same length that agree from the start of a range on give
the same fetch. -/
theorem readBytes_congr (x y : List Nat) (off : Int) (n : Nat) (hl : x.length = y.length)
    (hk : ∀ k, off.toNat ≤ k → x[k]? = y[k]?) : readBytes x off n = readBytes y off n := by
  unfold readBytes
  rw [hl]
  split
  · congr 2
    apply List.ext_getElem?
    intro j
    rw [List.getElem?_drop, List.getElem?_drop]
    exact hk _ (by omega)
  · rfl

/-- The effect of `leaky_step` on the regions of `frame_handle` depends only on
the bytes from index 4 on. -/
theorem leaky_step_local (x y : List Nat) (hl : x.length = y.length)
    (hk : ∀ k, 4 ≤ k → x[k]? = y[k]?) (i : Fin 2) :
    frame_handle.region_bytes (leaky_step x) i = frame_handle.region_bytes (leaky_step y) i := by
  have ha : 4 ≤ (frame_handle.region i).address.toNat := by
    fin_cases i <;> decide
  have h6 : x.getD 6 0 = y.getD 6 0 := by
    simp only [List.getD_eq_getElem?_getD, hk 6 (by omega)]
  refine readBytes_congr _ _ _ _ (by simp [leaky_step, hl]) (fun k hk4 => ?_)
  unfold leaky_step
  rw [List.getElem?_set, List.getElem?_set, hl, h6, hk k (by omega)]

/-- After a load with non-overlapping regions each region holds its buffer. -/
theorem load_slot_sized_regions (h : sm64) (hp : Heap) (a : Nat) (sv : savestate)
    (hsv : hp.slots[a]? = some sv) (hin : h.regions_inside hp.lib) (hsz : h.sized sv)
    (hd : (h.region 0).disjoint (h.region 1)) :
    ∃ hp', h.load_slot hp a = .ok hp' ∧ hp'.slots = hp.slots ∧
      hp'.lib.length = hp.lib.length ∧
      ∀ i : Fin 2, h.region_bytes hp'.lib i = .ok (sv.get i) := by
  obtain ⟨hp', hl, hs, hlen, hb⟩ := load_slot_sized_bytes h hp a sv hsv hin hsz
  have h0 := hin.1.1
  have h1 := hin.2.1
  refine ⟨hp', hl, hs, hlen, fun i => ?_⟩
  fin_cases i
  · show h.region_bytes hp'.lib 0 = .ok (sv.get 0)
    unfold sm64.region_bytes
    rw [← hsz.1]
    refine readBytes_eq_of_getElem? _ _ _ h0 (by rw [hlen, hsz.1]; exact hin.1.2) ?_
    intro j hj
    have hn : ¬ (h.region 1).contains ((h.region 0).address.toNat + j) := by
      rintro ⟨_, hc1, hc2⟩
      rw [hsz.1] at hj
      rcases hd with hd | hd | hd | hd <;> omega
    rw [hb, if_neg hn, if_pos ⟨h0, by omega, by rw [← hsz.1]; omega⟩]
    exact congrArg (fun k => (sv.get 0)[k]?) (by omega)
  · show h.region_bytes hp'.lib 1 = .ok (sv.get 1)
    unfold sm64.region_bytes
    rw [← hsz.2]
    refine readBytes_eq_of_getElem? _ _ _ h1 (by rw [hlen, hsz.2]; exact hin.2.2) ?_
    intro j hj
    rw [hb, if_pos ⟨h1, by omega, by rw [← hsz.2]; omega⟩]
    exact congrArg (fun k => (sv.get 1)[k]?) (by omega)

/-- Two objects of the same length that agree on a range give the same fetch of
that range. -/
theorem readBytes_congr_range (x y : List Nat) (off : Int) (n : Nat)
    (hl : x.length = y.length)
    (hk : ∀ k, off.toNat ≤ k → k < off.toNat + n → x[k]? = y[k]?) :
    readBytes x off n = readBytes y off n := by
  unfold readBytes
  rw [hl]
  split
  · congr 1
    apply List.ext_getElem?
    intro j
    by_cases hj : j < n
    · rw [List.getElem?_take_of_lt hj, List.getElem?_take_of_lt hj, List.getElem?_drop,
        List.getElem?_drop]
      exact hk _ (by omega) (by omega)
    · rw [List.getElem?_eq_none (by simp; omega), List.getElem?_eq_none (by simp; omega)]
  · rfl

/-- The effect of `echo_step` on the regions of `frame_handle` depends only on
the bytes of the regions and of the input structure. -/
theorem echo_step_local :
    frame_handle.step_reads_only echo_step
      (fun k => (frame_handle.region 0).contains k ∨ (frame_handle.region 1).contains k ∨
        pads_contains 0 k) := by
  intro x y hl hk i
  have h0 : x[0]? = y[0]? := hk 0 (Or.inr (Or.inr (by decide)))
  have g0 : x.getD 0 0 = y.getD 0 0 := by
    simp only [List.getD_eq_getElem?_getD, h0]
  refine readBytes_congr_range _ _ _ _ (by simp [echo_step, hl]) (fun k hk1 hk2 => ?_)
  have hxy : x[k]? = y[k]? := by
    fin_cases i
    · exact hk k (Or.inl ⟨by decide, hk1, hk2⟩)
    · exact hk k (Or.inr (Or.inl ⟨by decide, hk1, hk2⟩))
  unfold echo_step
  rw [List.getElem?_set, List.getElem?_set, hl, g0, hxy]

/-- Determinism of a replayed frame for a frame step whose effect on the
regions depends only on the bytes selected by `K`, from two module images that
agree on the selected bytes outside the regions and the input structure. -/
theorem replay_agrees_of_reads_only (h : sm64) (step : List Nat → List Nat) (K : Nat → Prop)
    (slots : List savestate) (m1 m2 : List Nat) (a : Nat) (sv : savestate)
    (buttons : Nat) (stick_x stick_y p : Int)
    (hsv : slots[a]? = some sv) (hsz : h.sized sv)
    (hin : h.regions_inside m1) (hlen : m1.length = m2.length)
    (hs : h._lib gControllerPads = some p) (h0 : 0 ≤ p) (hb : p.toNat + 4 ≤ m1.length)
    (hK : h.step_reads_only step K)
    (hm : ∀ k, K k → ¬ (h.region 0).contains k → ¬ (h.region 1).contains k →
      ¬ pads_contains p k → m1[k]? = m2[k]?) :
    h.replay_agrees step slots m1 m2 a buttons stick_x stick_y := by
  have hin2 : h.regions_inside m2 := by
    unfold sm64.regions_inside mem_region.inside at hin ⊢
    rw [← hlen]
    exact hin
  obtain ⟨x, hr1, hx, hxk⟩ := replay_frame_bytes h step { lib := m1, slots := slots } a sv
    buttons stick_x stick_y p hsv hin hsz hs h0 hb
  obtain ⟨y, hr2, hy, hyk⟩ := replay_frame_bytes h step { lib := m2, slots := slots } a sv
    buttons stick_x stick_y p hsv hin2 hsz hs h0 (by show _ ≤ m2.length; rw [← hlen]; exact hb)
  refine ⟨_, _, hr1, hr2, ?_⟩
  refine hK x y (by rw [hx, hy]; exact hlen) (fun k hk => ?_)
  rw [hxk, hyk]
  by_cases c0 : k = p.toNat
  · simp only [c0, if_true]
  · by_cases c1 : k = p.toNat + 1
    · simp only [c0, c1, if_true, if_false]
    · by_cases c2 : k = p.toNat + 2
      · simp only [c0, c1, c2, if_true, if_false]
      · by_cases c3 : k = p.toNat + 3
        · simp only [c0, c1, c2, c3, if_true, if_false]
        · by_cases r1 : (h.region 1).contains k
          · simp only [c0, c1, c2, c3, r1, if_true, if_false]
          · by_cases r0 : (h.region 0).contains k
            · simp only [c0, c1, c2, c3, r1, r0, if_true, if_false]
            · simp only [c0, c1, c2, c3, r1, r0, if_false]
              exact hm k hk r0 r1 (by unfold pads_contains; omega)

/-! ## Claims -/

/-- C4. Allocation sizing: the savestate returned by `allocate_slot` consists of
two buffers, the components of its `handle` array, and buffer `i` has length
`_regions[i].size`, for `i = 0` and `i = 1`. -/
theorem allocate_slot_sizing (h : sm64) :
    h.allocate_slot.handle.1.length = h._regions.1.size ∧
      h.allocate_slot.handle.2.length = h._regions.2.size ∧
      ∀ i : Fin 2, (h.allocate_slot.get i).length = (h.region i).size := by
  have hg : ∀ i : Fin 2, (h.allocate_slot.get i).length = (h.region i).size := by
    intro i
    rw [allocate_slot_get, List.length_replicate]
  exact ⟨hg 0, hg 1, hg⟩

/-- C2. Postcondition of `save_slot`: when the regions lie inside the module
image and buffer `i` of the target savestate has length `_regions[i].size`, the
save succeeds; afterwards buffer `i` is exactly the `_regions[i].size` bytes of the
module image at offset `_regions[i].address`, whatever it held before, and the
module image is unchanged. -/
theorem save_slot_postcondition (h : sm64) (hp : Heap) (a : Nat) (sv : savestate)
    (hsv : hp.slots[a]? = some sv) (hin : h.regions_inside hp.lib) (hsz : h.sized sv) :
    ∃ hp' sv', h.save_slot hp a = .ok hp' ∧ hp'.slots[a]? = some sv' ∧
      (∀ i : Fin 2, sv'.get i
        = (hp.lib.drop (h.region i).address.toNat).take (h.region i).size) ∧
      hp'.lib = hp.lib :=
  save_slot_sized_post h hp a sv hsv hin hsz

theorem save_slot_postcondition_witness :
    ∃ hp' sv', demo_handle.save_slot demo_heap 0 = .ok hp' ∧ hp'.slots[0]? = some sv' ∧
      (∀ i : Fin 2, sv'.get i
        = (demo_heap.lib.drop (demo_handle.region i).address.toNat).take
            (demo_handle.region i).size) ∧
      hp'.lib = demo_heap.lib :=
  save_slot_postcondition demo_handle demo_heap 0 ⟨([1, 1], [1])⟩ (by decide) (by decide)
    (by decide)

/-- C1. Round trip: when the regions lie inside the module image, a save into a
savestate freshly returned by `allocate_slot`, followed at once by a load from
it, succeeds and leaves the whole module image, hence each captured region,
byte for byte as it was before the save. -/
theorem save_load_round_trip (h : sm64) (hp : Heap) (hin : h.regions_inside hp.lib) :
    ∃ hp1 hp2, h.save_slot (hp.push h.allocate_slot) hp.slots.length = .ok hp1 ∧
      h.load_slot hp1 hp.slots.length = .ok hp2 ∧
      hp2.lib = hp.lib ∧
      ∀ i : Fin 2, h.region_bytes hp2.lib i = h.region_bytes hp.lib i := by
  have hsv : (hp.push h.allocate_slot).slots[hp.slots.length]? = some h.allocate_slot := by
    simp [Heap.push]
  obtain ⟨hp1, sv1, hs, hsv1, hget, hlib⟩ :=
    save_slot_sized_post h (hp.push h.allocate_slot) hp.slots.length _ hsv hin
      (allocate_slot_is_sized h)
  have hin1 : h.regions_inside hp1.lib := by rw [hlib]; exact hin
  have hl : h.load_slot hp1 hp.slots.length = .ok hp1 := by
    refine load_slot_of_captured h hp1 _ sv1 hsv1 (fun i => ?_)
    rw [region_bytes_of_inside h hp1.lib i (regions_inside_each h _ hin1 i), hget i, hlib]
  exact ⟨hp1, hp1, hs, hl, hlib, fun i => by rw [hlib]; rfl⟩

theorem save_load_round_trip_witness :
    ∃ hp1 hp2,
      demo_handle.save_slot (demo_heap.push demo_handle.allocate_slot) demo_heap.slots.length
        = .ok hp1 ∧
      demo_handle.load_slot hp1 demo_heap.slots.length = .ok hp2 ∧
      hp2.lib = demo_heap.lib ∧
      ∀ i : Fin 2, demo_handle.region_bytes hp2.lib i
        = demo_handle.region_bytes demo_heap.lib i :=
  save_load_round_trip demo_handle demo_heap (by decide)

/-- C3, as stated, fails when the regions overlap: with regions `[0, 2)` and
`[1, 3)` and buffers `[1, 2]`, `[3, 4]` the load succeeds and yields the image
`[1, 3, 4]`, so region 0 holds `[1, 3]` and not the contents `[1, 2]` of buffer 0. -/
theorem load_slot_overlap_counterexample :
    overlap_handle.regions_inside overlap_heap.lib ∧
      overlap_heap.slots[0]? = some ⟨([1, 2], [3, 4])⟩ ∧
      overlap_handle.sized ⟨([1, 2], [3, 4])⟩ ∧
      overlap_handle.load_slot overlap_heap 0
        = .ok { lib := [1, 3, 4], slots := [⟨([1, 2], [3, 4])⟩] } ∧
      overlap_handle.region_bytes [1, 3, 4] 0 = .ok [1, 3] ∧
      ¬ (overlap_handle.region_bytes [1, 3, 4] 0
          = .ok ((⟨([1, 2], [3, 4])⟩ : savestate).get 0)) := by
  refine ⟨by decide, by decide, by decide, by rfl, by rfl, ?_⟩
  intro hc
  have := (readBytes_ok_iff _ _ _ _).1 hc
  revert this
  decide

/-- C3, amended. Postcondition of `load_slot`: when the regions lie inside the
module image and the buffer sizes equal the region sizes, the load succeeds,
the savestates and the length of the image are unchanged, region 1 holds
exactly buffer 1, region 0 holds exactly buffer 0 provided the two regions do
not overlap, and every byte outside both regions is unchanged. -/
theorem load_slot_postcondition (h : sm64) (hp : Heap) (a : Nat) (sv : savestate)
    (hsv : hp.slots[a]? = some sv) (hin : h.regions_inside hp.lib) (hsz : h.sized sv) :
    ∃ hp', h.load_slot hp a = .ok hp' ∧ hp'.slots = hp.slots ∧
      hp'.lib.length = hp.lib.length ∧
      h.region_bytes hp'.lib 1 = .ok (sv.get 1) ∧
      ((h.region 0).disjoint (h.region 1) → h.region_bytes hp'.lib 0 = .ok (sv.get 0)) ∧
      ∀ k, ¬ (h.region 0).contains k → ¬ (h.region 1).contains k →
        hp'.lib[k]? = hp.lib[k]? := by
  obtain ⟨hp', hl, hs, hlen, hb⟩ := load_slot_sized_bytes h hp a sv hsv hin hsz
  have h0 := hin.1.1
  have h1 := hin.2.1
  refine ⟨hp', hl, hs, hlen, ?_, ?_, ?_⟩
  · unfold sm64.region_bytes
    rw [← hsz.2]
    refine readBytes_eq_of_getElem? _ _ _ h1 (by rw [hlen, hsz.2]; exact hin.2.2) ?_
    intro j hj
    rw [hb, if_pos ⟨h1, by omega, by rw [← hsz.2]; omega⟩]
    congr 1
    omega
  · intro hd
    unfold sm64.region_bytes
    rw [← hsz.1]
    refine readBytes_eq_of_getElem? _ _ _ h0 (by rw [hlen, hsz.1]; exact hin.1.2) ?_
    intro j hj
    have hn : ¬ (h.region 1).contains ((h.region 0).address.toNat + j) := by
      rintro ⟨_, hc1, hc2⟩
      rw [hsz.1] at hj
      rcases hd with hd | hd | hd | hd <;> omega
    rw [hb, if_neg hn, if_pos ⟨h0, by omega, by rw [← hsz.1]; omega⟩]
    congr 1
    omega
  · intro k hk0 hk1
    rw [hb, if_neg hk1, if_neg hk0]

theorem load_slot_postcondition_witness :
    ∃ hp', demo_handle.load_slot demo_heap 1 = .ok hp' ∧ hp'.slots = demo_heap.slots ∧
      hp'.lib.length = demo_heap.lib.length ∧
      demo_handle.region_bytes hp'.lib 1 = .ok ((⟨([5, 6], [4])⟩ : savestate).get 1) ∧
      ((demo_handle.region 0).disjoint (demo_handle.region 1) →
        demo_handle.region_bytes hp'.lib 0 = .ok ((⟨([5, 6], [4])⟩ : savestate).get 0)) ∧
      ∀ k, ¬ (demo_handle.region 0).contains k → ¬ (demo_handle.region 1).contains k →
        hp'.lib[k]? = demo_heap.lib[k]? :=
  load_slot_postcondition demo_handle demo_heap 1 ⟨([5, 6], [4])⟩ (by decide) (by decide)
    (by decide)

/-- C6. Input field layout: when the input structure `gControllerPads` lies
inside the module image, `set_input(buttons, stick_x, stick_y)` succeeds and a
read of the structure yields `buttons` as the 16-bit field at offset 0,
`stick_x` as the signed 8-bit field at offset 2 and `stick_y` as the signed
8-bit field at offset 3. -/
theorem set_input_field_layout (h : sm64) (hp : Heap) (buttons : Nat)
    (stick_x stick_y p : Int)
    (hs : h._lib gControllerPads = some p) (h0 : 0 ≤ p) (hb : p.toNat + 4 ≤ hp.lib.length)
    (hbtn : buttons < 65536) (hx : -128 ≤ stick_x ∧ stick_x ≤ 127)
    (hy : -128 ≤ stick_y ∧ stick_y ≤ 127) :
    ∃ hp', h.set_input hp buttons stick_x stick_y = .ok hp' ∧
      load_u16 hp'.lib (p + 0) = .ok buttons ∧
      load_i8 hp'.lib (p + 2) = .ok stick_x ∧
      load_i8 hp'.lib (p + 3) = .ok stick_y := by
  obtain ⟨hp', hset, _, hlen, hk⟩ := set_input_bytes h hp buttons stick_x stick_y p hs h0 hb
  have t0 : (p + 0).toNat = p.toNat := by simp
  have t2 : (p + 2).toNat = p.toNat + 2 := by omega
  have t3 : (p + 3).toNat = p.toNat + 3 := by omega
  refine ⟨hp', hset, ?_, ?_, ?_⟩
  · have hr : readBytes hp'.lib (p + 0) 2 = .ok [buttons % 256, buttons / 256 % 256] := by
      refine readBytes_eq_of_getElem? hp'.lib (p + 0) [buttons % 256, buttons / 256 % 256]
        (by omega) (by simp only [List.length_cons, List.length_nil]; omega) ?_
      intro j hj
      simp only [List.length_cons, List.length_nil] at hj
      rw [hk, t0]
      interval_cases j <;> simp
    rw [load_u16_of_bytes _ _ _ _ hr]
    congr 1
    omega
  · have hr : readBytes hp'.lib (p + 2) 1 = .ok [(stick_x % 256).toNat] := by
      refine readBytes_eq_of_getElem? hp'.lib (p + 2) [(stick_x % 256).toNat]
        (by omega) (by simp only [List.length_cons, List.length_nil]; omega) ?_
      intro j hj
      simp only [List.length_cons, List.length_nil] at hj
      rw [hk, t2]
      interval_cases j
      simp
    rw [load_i8_of_byte _ _ _ hr, int8_round_trip stick_x hx.1 hx.2]
  · have hr : readBytes hp'.lib (p + 3) 1 = .ok [(stick_y % 256).toNat] := by
      refine readBytes_eq_of_getElem? hp'.lib (p + 3) [(stick_y % 256).toNat]
        (by omega) (by simp only [List.length_cons, List.length_nil]; omega) ?_
      intro j hj
      simp only [List.length_cons, List.length_nil] at hj
      rw [hk, t3]
      interval_cases j
      simp
    rw [load_i8_of_byte _ _ _ hr, int8_round_trip stick_y hy.1 hy.2]

theorem set_input_field_layout_witness :
    ∃ hp', pads_handle.set_input pads_heap 0xABCD 5 (-3) = .ok hp' ∧
      load_u16 hp'.lib (1 + 0) = .ok 0xABCD ∧
      load_i8 hp'.lib (1 + 2) = .ok 5 ∧
      load_i8 hp'.lib (1 + 3) = .ok (-3) :=
  set_input_field_layout pads_handle pads_heap 0xABCD 5 (-3) 1 (by decide) (by decide)
    (by decide) (by decide) (by decide) (by decide)

/-- C5. Object copy preserves the destination header: for distinct 16-bit slot
indices whose slots lie inside the module image, `copy_object(src, dst)`
succeeds; the first 160 bytes of slot `dst` are unchanged, the next 1232 bytes
of slot `dst` equal the corresponding bytes of slot `src` before the call, and
all 1392 bytes of slot `src` are unchanged. -/
theorem copy_object_preserves_header (h : sm64) (hp : Heap) (src dst : Nat) (p : Int)
    (hs : h._lib gObjectPool = some p) (h0 : 0 ≤ p)
    (hsrc : src < 65536) (hdst : dst < 65536) (hne : src ≠ dst)
    (hbs : p.toNat + src * 1392 + 1392 ≤ hp.lib.length)
    (hbd : p.toNat + dst * 1392 + 1392 ≤ hp.lib.length) :
    ∃ hp', h.copy_object hp src dst = .ok hp' ∧ hp'.lib.length = hp.lib.length ∧
      (∀ j, j < 160 →
        hp'.lib[p.toNat + dst * 1392 + j]? = hp.lib[p.toNat + dst * 1392 + j]?) ∧
      (∀ j, 160 ≤ j → j < 1392 →
        hp'.lib[p.toNat + dst * 1392 + j]? = hp.lib[p.toNat + src * 1392 + j]?) ∧
      (∀ j, j < 1392 →
        hp'.lib[p.toNat + src * 1392 + j]? = hp.lib[p.toNat + src * 1392 + j]?) := by
  obtain ⟨hp', hc, _, hlen, hk⟩ := copy_object_bytes h hp src dst p hs h0 hsrc hdst hbs hbd
  refine ⟨hp', hc, hlen, fun j hj => ?_, fun j hj1 hj2 => ?_, fun j hj => ?_⟩
  · rw [hk, if_neg (by omega)]
  · rw [hk, if_pos ⟨by omega, by omega⟩]
    exact congrArg (fun i => hp.lib[i]?) (by omega)
  · rw [hk, if_neg (by omega)]

theorem copy_object_preserves_header_witness :
    ∃ hp', pads_handle.copy_object pool_heap 0 1 = .ok hp' ∧
      hp'.lib.length = pool_heap.lib.length ∧
      (∀ j, j < 160 →
        hp'.lib[(8 : Int).toNat + 1 * 1392 + j]? = pool_heap.lib[(8 : Int).toNat + 1 * 1392 + j]?) ∧
      (∀ j, 160 ≤ j → j < 1392 →
        hp'.lib[(8 : Int).toNat + 1 * 1392 + j]? = pool_heap.lib[(8 : Int).toNat + 0 * 1392 + j]?) ∧
      (∀ j, j < 1392 →
        hp'.lib[(8 : Int).toNat + 0 * 1392 + j]? = pool_heap.lib[(8 : Int).toNat + 0 * 1392 + j]?) :=
  copy_object_preserves_header pads_handle pool_heap 0 1 8 (by decide) (by decide)
    (by decide) (by decide) (by decide) (by simp [pool_heap]) (by simp [pool_heap])

/-- C7. Isolation: for two distinct savestates `a` and `b`, every completed
`save_slot` into `a` leaves savestate `b` (both buffers, bytes and lengths) as
it was, and every completed `load_slot` from `a` leaves all savestates, `a` and
`b` included, as they were; a save leaves the module image as it was. -/
theorem savestate_isolation (h : sm64) (hp : Heap) (a b : Nat) (hab : a ≠ b) :
    (∀ hp', h.save_slot hp a = .ok hp' →
      hp'.slots[b]? = hp.slots[b]? ∧ hp'.lib = hp.lib) ∧
    (∀ hp', h.load_slot hp a = .ok hp' →
      hp'.slots[a]? = hp.slots[a]? ∧ hp'.slots[b]? = hp.slots[b]? ∧
        hp'.slots = hp.slots) := by
  constructor
  · intro hp' hs
    obtain ⟨hl, _, hf⟩ := save_slot_frame h hp hp' a hs
    exact ⟨hf b (Ne.symm hab), hl⟩
  · intro hp' hs
    have hf := load_slot_frame h hp hp' a hs
    exact ⟨by rw [hf], by rw [hf], hf⟩

theorem savestate_isolation_witness :
    demo_handle.save_slot demo_heap 0
        = .ok { lib := [7, 8, 9, 10], slots := [⟨([7, 8], [9])⟩, ⟨([5, 6], [4])⟩] } ∧
      demo_handle.load_slot demo_heap 0
        = .ok { lib := [1, 1, 1, 10], slots := [⟨([1, 1], [1])⟩, ⟨([5, 6], [4])⟩] } ∧
      (∀ hp', demo_handle.save_slot demo_heap 0 = .ok hp' →
        hp'.slots[1]? = demo_heap.slots[1]? ∧ hp'.lib = demo_heap.lib) ∧
      (∀ hp', demo_handle.load_slot demo_heap 0 = .ok hp' →
        hp'.slots[0]? = demo_heap.slots[0]? ∧ hp'.slots[1]? = demo_heap.slots[1]? ∧
          hp'.slots = demo_heap.slots) :=
  ⟨rfl, rfl, savestate_isolation demo_handle demo_heap 0 1 (by decide)⟩

/-- C9. Savestate size invariant: the savestate returned by `allocate_slot`
has buffer `i` of length `_regions[i].size`; every completed sequence of
`save_slot` and `load_slot` calls leaves the length of every buffer of every
savestate as it was, so a savestate that satisfies the size predicate before
the sequence satisfies it afterwards. -/
theorem savestate_size_invariant (h : sm64) (ops : List slot_op) (hp hp' : Heap)
    (hr : h.run ops hp = .ok hp') :
    h.sized h.allocate_slot ∧
      hp'.buffer_lengths = hp.buffer_lengths ∧
      ∀ (b : Nat) (sv : savestate), hp.slots[b]? = some sv → h.sized sv →
        ∃ sv', hp'.slots[b]? = some sv' ∧ h.sized sv' := by
  have hl := run_buffer_lengths h ops hp hp' hr
  exact ⟨allocate_slot_is_sized h, hl,
    fun b sv hsv hsz => sized_of_buffer_lengths h hp hp' b sv hl hsv hsz⟩

theorem savestate_size_invariant_witness :
    demo_handle.run [slot_op.save 0, slot_op.load 1, slot_op.save 0] demo_heap
        = .ok demo_heap_after ∧
      demo_handle.sized demo_handle.allocate_slot ∧
      demo_heap_after.buffer_lengths = demo_heap.buffer_lengths ∧
      ∀ (b : Nat) (sv : savestate), demo_heap.slots[b]? = some sv → demo_handle.sized sv →
        ∃ sv', demo_heap_after.slots[b]? = some sv' ∧ demo_handle.sized sv' :=
  ⟨rfl, savestate_size_invariant demo_handle [slot_op.save 0, slot_op.load 1, slot_op.save 0]
    demo_heap demo_heap_after rfl⟩

/-- C10. Bounds safety under the size precondition: when the regions lie inside
the module image and buffer `i` has length `_regions[i].size`, which holds in
particular for the savestate returned by `allocate_slot`, both `save_slot` and
`load_slot` complete, so the checked accesses never take the out-of-range
branch; the save changes no buffer length, no other savestate and no byte of
the image, and the load changes no savestate, not the length of the image and
no byte outside the two regions. -/
theorem save_load_bounds_safe (h : sm64) (hp : Heap) (a : Nat) (sv : savestate)
    (hsv : hp.slots[a]? = some sv) (hin : h.regions_inside hp.lib) (hsz : h.sized sv) :
    h.sized h.allocate_slot ∧
      (∃ hp', h.save_slot hp a = .ok hp' ∧ hp'.lib = hp.lib ∧
        hp'.buffer_lengths = hp.buffer_lengths ∧
        ∀ b, b ≠ a → hp'.slots[b]? = hp.slots[b]?) ∧
      (∃ hp', h.load_slot hp a = .ok hp' ∧ hp'.slots = hp.slots ∧
        hp'.lib.length = hp.lib.length ∧
        ∀ k, ¬ (h.region 0).contains k → ¬ (h.region 1).contains k →
          hp'.lib[k]? = hp.lib[k]?) ∧
      h.save_slot hp a ≠ .error .out_of_range ∧
      h.load_slot hp a ≠ .error .out_of_range := by
  obtain ⟨hp1, _, hs, _, _, _⟩ := save_slot_sized_post h hp a sv hsv hin hsz
  obtain ⟨hl1, _, hf1⟩ := save_slot_frame h hp hp1 a hs
  obtain ⟨hp2, hl, hsl, hlen, hb⟩ := load_slot_sized_bytes h hp a sv hsv hin hsz
  refine ⟨allocate_slot_is_sized h,
    ⟨hp1, hs, hl1, save_slot_buffer_lengths h hp hp1 a hs, hf1⟩,
    ⟨hp2, hl, hsl, hlen, fun k hk0 hk1 => ?_⟩, ?_, ?_⟩
  · rw [hb, if_neg hk1, if_neg hk0]
  · rw [hs]
    exact fun hc => Except.noConfusion hc
  · rw [hl]
    exact fun hc => Except.noConfusion hc

theorem save_load_bounds_safe_witness :
    demo_handle.sized demo_handle.allocate_slot ∧
      (∃ hp', demo_handle.save_slot (demo_heap.push demo_handle.allocate_slot) 2 = .ok hp' ∧
        hp'.lib = (demo_heap.push demo_handle.allocate_slot).lib ∧
        hp'.buffer_lengths = (demo_heap.push demo_handle.allocate_slot).buffer_lengths ∧
        ∀ b, b ≠ 2 → hp'.slots[b]? = (demo_heap.push demo_handle.allocate_slot).slots[b]?) ∧
      (∃ hp', demo_handle.load_slot (demo_heap.push demo_handle.allocate_slot) 2 = .ok hp' ∧
        hp'.slots = (demo_heap.push demo_handle.allocate_slot).slots ∧
        hp'.lib.length = (demo_heap.push demo_handle.allocate_slot).lib.length ∧
        ∀ k, ¬ (demo_handle.region 0).contains k → ¬ (demo_handle.region 1).contains k →
          hp'.lib[k]? = (demo_heap.push demo_handle.allocate_slot).lib[k]?) ∧
      demo_handle.save_slot (demo_heap.push demo_handle.allocate_slot) 2
        ≠ .error .out_of_range ∧
      demo_handle.load_slot (demo_heap.push demo_handle.allocate_slot) 2
        ≠ .error .out_of_range :=
  save_load_bounds_safe demo_handle (demo_heap.push demo_handle.allocate_slot) 2
    demo_handle.allocate_slot (by decide) (by decide) (by decide)

/-- C8, as stated, fails: the load restores only the two regions, so a frame
step that reads a byte outside them tells two prior module images apart. With
regions at byte 4 and byte 5 and a step that copies byte 6 into byte 4, the two
runs from the images `[0,0,0,0,0,0,0]` and `[0,0,0,0,0,0,1]` with the same
savestate and the same input end with region 0 holding `[0]` and `[1]`. -/
theorem frame_determinism_counterexample :
    frame_handle.sized ⟨([0], [0])⟩ ∧
      frame_handle.regions_inside [0, 0, 0, 0, 0, 0, 0] ∧
      frame_handle.regions_inside [0, 0, 0, 0, 0, 0, 1] ∧
      frame_handle.replay_frame leaky_step
          { lib := [0, 0, 0, 0, 0, 0, 0], slots := [⟨([0], [0])⟩] } 0 0 0 0
        = .ok { lib := [0, 0, 0, 0, 0, 0, 0], slots := [⟨([0], [0])⟩] } ∧
      frame_handle.replay_frame leaky_step
          { lib := [0, 0, 0, 0, 0, 0, 1], slots := [⟨([0], [0])⟩] } 0 0 0 0
        = .ok { lib := [0, 0, 0, 0, 1, 0, 1], slots := [⟨([0], [0])⟩] } ∧
      frame_handle.region_bytes [0, 0, 0, 0, 0, 0, 0] 0 = .ok [0] ∧
      frame_handle.region_bytes [0, 0, 0, 0, 1, 0, 1] 0 = .ok [1] := by
  refine ⟨by decide, by decide, by decide, by rfl, by rfl, by rfl, by rfl⟩

/-- C8, amended. Determinism: take a savestate with buffer sizes matching the
regions, a fixed input, and two prior module images of the same length, with
the regions and the input structure inside the image. The two runs of
`load_slot`, `set_input`, `advance` complete and give the same contents in both
regions
* whenever the effect of the frame step on the regions depends only on the
  bytes selected by some `K` and the two images agree on every selected byte
  outside both regions and outside the input structure;
* in particular for every frame step, when the two images agree on every byte
  outside both regions;
* and in particular for every two images, when the effect of the frame step on
  the regions depends only on the bytes of the regions and of the input
  structure. -/
theorem frame_determinism (h : sm64) (step : List Nat → List Nat)
    (slots : List savestate) (m1 m2 : List Nat) (a : Nat) (sv : savestate)
    (buttons : Nat) (stick_x stick_y p : Int)
    (hsv : slots[a]? = some sv) (hsz : h.sized sv)
    (hin : h.regions_inside m1) (hlen : m1.length = m2.length)
    (hs : h._lib gControllerPads = some p) (h0 : 0 ≤ p) (hb : p.toNat + 4 ≤ m1.length) :
    (∀ K : Nat → Prop, h.step_reads_only step K →
      (∀ k, K k → ¬ (h.region 0).contains k → ¬ (h.region 1).contains k →
        ¬ pads_contains p k → m1[k]? = m2[k]?) →
      h.replay_agrees step slots m1 m2 a buttons stick_x stick_y) ∧
    ((∀ k, ¬ (h.region 0).contains k → ¬ (h.region 1).contains k → m1[k]? = m2[k]?) →
      h.replay_agrees step slots m1 m2 a buttons stick_x stick_y) ∧
    (h.step_reads_only step
        (fun k => (h.region 0).contains k ∨ (h.region 1).contains k ∨ pads_contains p k) →
      h.replay_agrees step slots m1 m2 a buttons stick_x stick_y) := by
  refine ⟨fun K hK hm => ?_, fun hm => ?_, fun hK => ?_⟩
  · exact replay_agrees_of_reads_only h step K slots m1 m2 a sv buttons stick_x stick_y p
      hsv hsz hin hlen hs h0 hb hK hm
  · refine replay_agrees_of_reads_only h step (fun _ => True) slots m1 m2 a sv buttons
      stick_x stick_y p hsv hsz hin hlen hs h0 hb ?_ (fun k _ r0 r1 _ => hm k r0 r1)
    intro x y _ hk i
    have hxy : x = y := List.ext_getElem? (fun k => hk k trivial)
    rw [hxy]
  · refine replay_agrees_of_reads_only h step _ slots m1 m2 a sv buttons
      stick_x stick_y p hsv hsz hin hlen hs h0 hb hK ?_
    intro k hk r0 r1 hp
    rcases hk with hk | hk | hk
    · exact absurd hk r0
    · exact absurd hk r1
    · exact absurd hk hp

theorem frame_determinism_witness :
    frame_handle.replay_agrees echo_step [⟨([8], [9])⟩]
      [0, 0, 0, 0, 1, 2, 7] [6, 6, 6, 6, 3, 4, 5] 0 0xABCD 5 (-3) :=
  (frame_determinism frame_handle echo_step
    [⟨([8], [9])⟩] [0, 0, 0, 0, 1, 2, 7] [6, 6, 6, 6, 3, 4, 5] 0 ⟨([8], [9])⟩ 0xABCD 5 (-3) 0
    (by decide) (by decide) (by decide) (by decide) rfl (by decide) (by decide)).2.2
    echo_step_local

/-- C11. Symbol Locator offset: for a symbol that resolves to address `a`,
`locate(symbol, k)` returns `a + k` for every signed `k`, `locate(symbol)`
returns `a`, `locate(symbol, j + k)` is `locate(symbol, j)` moved by `k` (also
modulo 2^64 when the sum `j + k` wraps in 64-bit arithmetic), and the lookup
hands the heap on unchanged. -/
theorem locate_offset (h : sm64) (symbol : String) (a : Int)
    (hs : h._impl_locate symbol = .ok a) :
    (∀ k, h.locate symbol k = .ok (a + k)) ∧
      h.locate_default symbol = .ok a ∧
      (∀ j k, ∃ r, h.locate symbol j = .ok r ∧ h.locate symbol (j + k) = .ok (r + k)) ∧
      (∀ j k, ∃ r1 r2, h.locate symbol (wrap_int64 (j + k)) = .ok r1 ∧
        h.locate symbol j = .ok r2 ∧
        r1 % 18446744073709551616 = (r2 + k) % 18446744073709551616) ∧
      ∀ hp k, h.locate_step hp symbol k = .ok (a + k, hp) := by
  have hk : ∀ k, h.locate symbol k = .ok (a + k) := by
    intro k
    simp [sm64.locate, hs]
  refine ⟨hk, ?_, fun j k => ⟨a + j, hk j, ?_⟩, fun j k => ⟨_, _, hk _, hk j, ?_⟩,
    fun hp k => ?_⟩
  · rw [sm64.locate_default, hk 0, Int.add_zero]
  · rw [hk (j + k), Int.add_assoc]
  · unfold wrap_int64
    omega
  · simp [sm64.locate_step, hk k]

theorem locate_offset_witness :
    (∀ k, pads_handle.locate gControllerPads k = .ok (1 + k)) ∧
      pads_handle.locate_default gControllerPads = .ok 1 ∧
      (∀ j k, ∃ r, pads_handle.locate gControllerPads j = .ok r ∧
        pads_handle.locate gControllerPads (j + k) = .ok (r + k)) ∧
      (∀ j k, ∃ r1 r2, pads_handle.locate gControllerPads (wrap_int64 (j + k)) = .ok r1 ∧
        pads_handle.locate gControllerPads j = .ok r2 ∧
        r1 % 18446744073709551616 = (r2 + k) % 18446744073709551616) ∧
      ∀ hp k, pads_handle.locate_step hp gControllerPads k = .ok (1 + k, hp) :=
  locate_offset pads_handle gControllerPads 1 rfl

/-- C12. Input-frame overload equivalence: for every input frame `f` and every
heap, the overload `set_input(f)` gives exactly the result of
`set_input(f.m_buttons, f.m_stick_x, f.m_stick_y)`, the same module image on
success and the same failure otherwise. -/
theorem set_input_frame_forwards (h : sm64) (hp : Heap) (f : input_frame) :
    h.set_input_frame hp f = set_input_forwarded h hp f ∧
      h.set_input_frame hp f = h.set_input hp f.m_buttons f.m_stick_x f.m_stick_y := by
  constructor
  · unfold sm64.set_input_frame set_input_forwarded
    rfl
  · unfold sm64.set_input_frame
    rfl

/-- C13. Load is a right inverse of save for non-overlapping regions: when the
regions lie inside the module image and do not overlap and the buffer sizes of
savestate `a` equal the region sizes, `load_slot(a)` followed by a `save_slot`
into a savestate freshly returned by `allocate_slot` completes, and the new
savestate has both buffers equal to those of `a`, which itself is unchanged. -/
theorem load_save_round_trip (h : sm64) (hp : Heap) (a : Nat) (sv : savestate)
    (hsv : hp.slots[a]? = some sv) (hin : h.regions_inside hp.lib) (hsz : h.sized sv)
    (hd : (h.region 0).disjoint (h.region 1)) :
    ∃ hp1 hp2 t, h.load_slot hp a = .ok hp1 ∧
      h.save_slot (hp1.push h.allocate_slot) hp1.slots.length = .ok hp2 ∧
      hp2.slots[hp1.slots.length]? = some t ∧
      (∀ i : Fin 2, t.get i = sv.get i) ∧ t = sv ∧
      hp2.slots[a]? = some sv := by
  obtain ⟨hp1, hl, hs1, hlen1, hreg⟩ := load_slot_sized_regions h hp a sv hsv hin hsz hd
  have hin1 : h.regions_inside hp1.lib := by
    unfold sm64.regions_inside mem_region.inside at hin ⊢
    rw [hlen1]
    exact hin
  have hpush : (hp1.push h.allocate_slot).slots[hp1.slots.length]? = some h.allocate_slot := by
    simp [Heap.push]
  obtain ⟨hp2, t, hs, ht, hget, _⟩ :=
    save_slot_sized_post h (hp1.push h.allocate_slot) hp1.slots.length _ hpush hin1
      (allocate_slot_is_sized h)
  have hti : ∀ i : Fin 2, t.get i = sv.get i := by
    intro i
    have hr := hreg i
    rw [region_bytes_of_inside h hp1.lib i (regions_inside_each h _ hin1 i)] at hr
    rw [hget i]
    exact Except.ok.inj hr
  have hlt : a < hp.slots.length := (List.getElem?_eq_some_iff.1 hsv).1
  obtain ⟨_, _, hfr⟩ := save_slot_frame h _ hp2 _ hs
  refine ⟨hp1, hp2, t, hl, hs, ht, hti, savestate.ext_get t sv (hti 0) (hti 1), ?_⟩
  rw [hfr a (by rw [hs1]; omega)]
  simp only [Heap.push, hs1]
  rw [List.getElem?_append_left hlt, hsv]

theorem load_save_round_trip_witness :
    ∃ hp1 hp2 t, demo_handle.load_slot demo_heap 1 = .ok hp1 ∧
      demo_handle.save_slot (hp1.push demo_handle.allocate_slot) hp1.slots.length = .ok hp2 ∧
      hp2.slots[hp1.slots.length]? = some t ∧
      (∀ i : Fin 2, t.get i = (⟨([5, 6], [4])⟩ : savestate).get i) ∧
      t = ⟨([5, 6], [4])⟩ ∧
      hp2.slots[1]? = some ⟨([5, 6], [4])⟩ :=
  load_save_round_trip demo_handle demo_heap 1 ⟨([5, 6], [4])⟩ (by decide) (by decide)
    (by decide) (by decide)

/-- C14. Frame of `copy_object`: for 16-bit indices `src` and `dst`, equal or
not, whose slots lie inside the module image, `copy_object(src, dst)`
completes, keeps every savestate and the length of the image, and changes no
byte outside the 1232-byte payload of slot `dst` (pool bytes `dst*1392+160` to
`dst*1392+1391`); when `src = dst` the whole heap is unchanged. -/
theorem copy_object_frame (h : sm64) (hp : Heap) (src dst : Nat) (p : Int)
    (hs : h._lib gObjectPool = some p) (h0 : 0 ≤ p)
    (hsrc : src < 65536) (hdst : dst < 65536)
    (hbs : p.toNat + src * 1392 + 1392 ≤ hp.lib.length)
    (hbd : p.toNat + dst * 1392 + 1392 ≤ hp.lib.length) :
    ∃ hp', h.copy_object hp src dst = .ok hp' ∧ hp'.slots = hp.slots ∧
      hp'.lib.length = hp.lib.length ∧
      (∀ k, ¬ (p.toNat + dst * 1392 + 160 ≤ k ∧ k < p.toNat + dst * 1392 + 1392) →
        hp'.lib[k]? = hp.lib[k]?) ∧
      (src = dst → hp' = hp) := by
  obtain ⟨hp', hc, hsl, hlen, hk⟩ := copy_object_bytes h hp src dst p hs h0 hsrc hdst hbs hbd
  refine ⟨hp', hc, hsl, hlen, fun k hn => ?_, fun he => ?_⟩
  · rw [hk, if_neg hn]
  · have hlib : hp'.lib = hp.lib := by
      apply List.ext_getElem?
      intro k
      rw [hk]
      split
      · next hin =>
        exact congrArg (fun i => hp.lib[i]?) (by omega)
      · rfl
    cases hp' with
    | mk l1 s1 =>
      cases hp with
      | mk l2 s2 =>
        simp only at hlib hsl
        rw [hlib, hsl]

theorem copy_object_frame_witness :
    ∃ hp', pads_handle.copy_object pool_heap 1 1 = .ok hp' ∧ hp'.slots = pool_heap.slots ∧
      hp'.lib.length = pool_heap.lib.length ∧
      (∀ k, ¬ ((8 : Int).toNat + 1 * 1392 + 160 ≤ k ∧ k < (8 : Int).toNat + 1 * 1392 + 1392) →
        hp'.lib[k]? = pool_heap.lib[k]?) ∧
      (1 = 1 → hp' = pool_heap) :=
  copy_object_frame pads_handle pool_heap 1 1 8 rfl (by decide) (by decide) (by decide)
    (by simp [pool_heap]) (by simp [pool_heap])

/-- C15. Exact offset arithmetic of `copy_object`: for a 16-bit index `i` the
32-bit `int` computations `i * 1392` and `i * 1392 + 160` do not wrap, so the
offset is the mathematical value; the payload of slot `i` ends exactly where
slot `i + 1` begins, and the payloads of two distinct 16-bit indices do not
overlap. -/
theorem object_offset_exact (i : Nat) (hi : i < 65536) :
    wrap_int32 ((i : Int) * 1392) = (i : Int) * 1392 ∧
      wrap_int32 ((i : Int) * 1392 + 160) = (i : Int) * 1392 + 160 ∧
      object_offset i = (i : Int) * 1392 + 160 ∧
      (0 ≤ object_offset i ∧ object_offset i < 2147483648) ∧
      object_offset i + 1232 = ((i : Int) + 1) * 1392 ∧
      ∀ j, j < 65536 → i ≠ j →
        object_offset i + 1232 ≤ object_offset j ∨ object_offset j + 1232 ≤ object_offset i := by
  have ho := object_offset_of_uint16 i hi
  refine ⟨wrap_int32_of_range _ (by omega) (by omega),
    wrap_int32_of_range _ (by omega) (by omega), ho, ⟨by omega, by omega⟩, by omega, ?_⟩
  intro j hj hne
  rw [ho, object_offset_of_uint16 j hj]
  omega

theorem object_offset_exact_witness :
    wrap_int32 (((65535 : Nat) : Int) * 1392) = ((65535 : Nat) : Int) * 1392 ∧
      wrap_int32 (((65535 : Nat) : Int) * 1392 + 160) = ((65535 : Nat) : Int) * 1392 + 160 ∧
      object_offset 65535 = ((65535 : Nat) : Int) * 1392 + 160 ∧
      (0 ≤ object_offset 65535 ∧ object_offset 65535 < 2147483648) ∧
      object_offset 65535 + 1232 = (((65535 : Nat) : Int) + 1) * 1392 ∧
      ∀ j, j < 65536 → 65535 ≠ j →
        object_offset 65535 + 1232 ≤ object_offset j ∨
          object_offset j + 1232 ≤ object_offset 65535 :=
  object_offset_exact 65535 (by decide)

/-- C16. A freshly allocated savestate holds no captured data: for every
handle, buffer `i` returned by `allocate_slot` consists of `_regions[i].size`
zero bytes, so every byte of both buffers is zero, and the savestate is the
same whatever the module image and the stored savestates are. -/
theorem allocate_slot_zeroed (h : sm64) :
    (∀ i : Fin 2, h.allocate_slot.get i = List.replicate (h.region i).size 0) ∧
      (∀ i : Fin 2, ∀ b ∈ h.allocate_slot.get i, b = 0) ∧
      ∀ hp : Heap, (hp.push h.allocate_slot).lib = hp.lib ∧
        (hp.push h.allocate_slot).slots[hp.slots.length]?
          = some ⟨(List.replicate h._regions.1.size 0, List.replicate h._regions.2.size 0)⟩ := by
  refine ⟨allocate_slot_get h, fun i b hb => ?_, fun hp => ⟨rfl, ?_⟩⟩
  · rw [allocate_slot_get] at hb
    exact List.eq_of_mem_replicate hb
  · have hsv : (hp.push h.allocate_slot).slots[hp.slots.length]? = some h.allocate_slot := by
      simp [Heap.push]
    exact hsv

end libsm64
